import Mathlib

/-!
Verification of the access-control filter construction engine
(`pkg/services/accesscontrol/filter.go`): scope parsing, wildcard
resolution, SQL predicate synthesis and the role-membership predicate
builder. Go maps over `interface{}` keys are embedded as association
lists over a tagged identifier type; Go's `(value, error)` returns are
embedded as pairs with an `Option String` error component.
-/

set_option autoImplicit false

namespace AccessControl

/-- A bound SQL argument: the Go code stores `int64` or `string` values
in `[]interface{}`, embedded as a tagged variant. -/
inductive Attr where
  | int : Int → Attr
  | str : String → Attr
  deriving DecidableEq, Repr

/-- `SQLFilter` from filter.go: a WHERE-clause fragment plus its bound
arguments (`nil` slices are embedded as `[]`). -/
structure SQLFilter where
  Where : String
  Args : List Attr
  deriving DecidableEq, Repr

/-- `denyQuery` from filter.go. -/
def denyQuery : SQLFilter := { Where := " 1 = 0", Args := [] }

/-- `allowAllQuery` from filter.go. -/
def allowAllQuery : SQLFilter := { Where := " 1 = 1", Args := [] }

/-- `sqlIDAcceptList` from filter.go (a `map[string]struct{}`, embedded
as the list of its keys). -/
def sqlIDAcceptList : List String :=
  ["id", "org_user.user_id", "role.uid", "t.id", "team.id", "u.id",
   "\"user\".\"id\"", "`user`.`id`", "dashboard.uid"]

/-- The fields of `user.SignedInUser` read by `Filter`: the organization
and the permission map `map[int64]map[string][]string`. A `nil` outer
map, or a missing / `nil` per-organization entry, is `none`; a missing
action key of a present per-organization map reads as the empty slice. -/
structure SignedInUser where
  OrgID : Int
  Permissions : Option (Int → Option (String → List String))

/-- `user == nil || user.Permissions == nil || user.Permissions[user.OrgID] == nil`
collapsed into one lookup: the per-organization permission map, if the
user and every level of the map are present. -/
def permsForOrg : Option SignedInUser → Option (String → List String)
  | none => none
  | some u =>
    match u.Permissions with
    | none => none
    | some pm => pm u.OrgID

/-- `strings.HasPrefix(s, p)`. -/
def strHasPrefix (s p : String) : Bool := p.data.isPrefixOf s.data

/-- `strings.HasSuffix(s, p)`. -/
def strHasSuffix (s p : String) : Bool := p.data.reverse.isPrefixOf s.data.reverse

/-- `strings.Repeat(s, n)`. -/
def strRepeat (s : String) : Nat → String
  | 0 => ""
  | n + 1 => s ++ strRepeat s n

/-- `scope[strings.LastIndex(scope, ":")+1:]`: the characters after the
last colon (the whole string when it has no colon). -/
def afterLastColon (cs : List Char) : List Char :=
  (cs.reverse.takeWhile (fun c => c != ':')).reverse

/-- One decimal-digit accumulation pass of `strconv.ParseInt`'s digit
loop: `none` as soon as a non-digit appears. -/
def digitsValAux : List Char → Nat → Option Nat
  | [], acc => some acc
  | c :: rest, acc =>
    if c.isDigit then digitsValAux rest (10 * acc + (c.toNat - 48)) else none

/-- `strconv.ParseInt(s, 10, 64)`: optional single sign, at least one
digit, all digits, and the value must fit in a signed 64-bit integer. -/
def parseInt64Chars : List Char → Option Int
  | [] => none
  | '-' :: rest =>
    match rest with
    | [] => none
    | _ =>
      (digitsValAux rest 0).bind fun n =>
        if (n : Int) ≤ 2 ^ 63 then some (-(n : Int)) else none
  | '+' :: rest =>
    match rest with
    | [] => none
    | _ =>
      (digitsValAux rest 0).bind fun n =>
        if (n : Int) ≤ 2 ^ 63 - 1 then some (n : Int) else none
  | cs =>
    (digitsValAux cs 0).bind fun n =>
      if (n : Int) ≤ 2 ^ 63 - 1 then some (n : Int) else none

/-- `parseIntAttribute` from filter.go. -/
def parseIntAttribute (scope : String) : Option Attr :=
  (parseInt64Chars (afterLastColon scope.data)).map Attr.int

/-- `parseStringAttribute` from filter.go (never fails). -/
def parseStringAttribute (scope : String) : Option Attr :=
  some (Attr.str (String.mk (afterLastColon scope.data)))

/-- Split a character list at colons (like `strings.Split(s, ":")`). -/
def splitCols : List Char → List (List Char)
  | [] => [[]]
  | c :: rest =>
    let r := splitCols rest
    if c = ':' then [] :: r
    else
      match r with
      | [] => [[c]]
      | seg :: segs => (c :: seg) :: segs

/-- Cumulative wildcard forms of a segment list: each colon-joined
non-empty segment chain extended with `:*`. -/
def wildcardsFromParts (pre : String) : List String → List String
  | [] => []
  | p :: rest => (pre ++ p ++ ":*") :: wildcardsFromParts (pre ++ p ++ ":") rest

/-- Modelled from the spec: `WildcardsFromPrefix` (the Wildcard Resolver,
whose source is not under src/) expands a colon-separated scope prefix
`resourceKind:attribute:` into the wildcard forms granting blanket access
at each level of specificity: `resourceKind:*` and
`resourceKind:attribute:*`; membership is exact string equality. -/
def WildcardsFromPrefix (pfx : String) : List String :=
  wildcardsFromParts ""
    (((splitCols pfx.data).filter (fun seg => !seg.isEmpty)).map
      (fun seg => String.mk seg))

/-- Go map insertion of a key into a `map[interface{}]struct{}`,
embedded as duplicate-free insertion-ordered list extension. -/
def insertDedup (acc : List Attr) (id : Attr) : List Attr :=
  if id ∈ acc then acc else acc ++ [id]

/-- The scope loop of `ParseScopes`: a wildcard match short-circuits with
`([], true)`; a prefix match accumulates the parsed identifier when the
parser succeeds; everything else is skipped. -/
def parseScopesGo (wcs : List String) (pfx : String) (parse : String → Option Attr) :
    List String → List Attr → List Attr × Bool
  | [], acc => (acc, false)
  | scope :: rest, acc =>
    if wcs.contains scope then ([], true)
    else if strHasPrefix scope pfx then
      match parse scope with
      | some id => parseScopesGo wcs pfx parse rest (insertDedup acc id)
      | none => parseScopesGo wcs pfx parse rest acc
    else parseScopesGo wcs pfx parse rest acc

/-- `ParseScopes` from filter.go: integer identifiers when the prefix
ends in `":id:"`, string identifiers otherwise. -/
def ParseScopes (pfx : String) (scopes : List String) : List Attr × Bool :=
  parseScopesGo (WildcardsFromPrefix pfx) pfx
    (if strHasSuffix pfx ":id:" then parseIntAttribute else parseStringAttribute)
    scopes []

/-- `result[id] += 1` on the tally map `map[interface{}]int`, embedded
as an association list keyed in first-insertion order. -/
def bump (t : List (Attr × Nat)) (x : Attr) : List (Attr × Nat) :=
  match t with
  | [] => [(x, 1)]
  | (k, n) :: rest => if k = x then (k, n + 1) :: rest else (k, n) :: bump rest x

/-- `for id := range ids { result[id] += 1 }`. -/
def tallyAdd (t : List (Attr × Nat)) (ids : List Attr) : List (Attr × Nat) :=
  ids.foldl bump t

/-- Outcome of the per-action loop in `Filter`: either the early
`return denyQuery, nil` on an empty non-wildcard identifier set, or the
final wildcard counter and tally map. -/
inductive LoopResult where
  | earlyDeny : LoopResult
  | done : Nat → List (Attr × Nat) → LoopResult
  deriving DecidableEq, Repr

/-- The `for _, a := range actions` loop of `Filter`. -/
def filterLoop (perms : String → List String) (pfx : String) :
    List String → Nat → List (Attr × Nat) → LoopResult
  | [], w, t => .done w t
  | a :: rest, w, t =>
    let r := ParseScopes pfx (perms a)
    if r.2 then filterLoop perms pfx rest (w + 1) t
    else if r.1.isEmpty then .earlyDeny
    else filterLoop perms pfx rest w (tallyAdd t r.1)

/-- `Filter` from filter.go: accept-list check, permission-map check,
per-action scope resolution, wildcard shortcut, tally intersection, and
IN-list synthesis. The Go error is embedded as `Option String`. -/
def Filter (u : Option SignedInUser) (sqlID pfx : String) (actions : List String) :
    SQLFilter × Option String :=
  if sqlIDAcceptList.contains sqlID then
    match permsForOrg u with
    | none => (denyQuery, some "missing permissions")
    | some perms =>
      match filterLoop perms pfx actions 0 [] with
      | .earlyDeny => (denyQuery, none)
      | .done wildcards tally =>
        if wildcards = actions.length then (allowAllQuery, none)
        else
          let ids := (tally.filter (fun p => p.2 + wildcards == actions.length)).map Prod.fst
          if ids.isEmpty then (denyQuery, none)
          else
            ({ Where := " " ++ sqlID ++ " IN (?" ++ strRepeat ",?" (ids.length - 1) ++ ")",
               Args := ids }, none)
  else (denyQuery, some "sqlID is not in the accept list")

/-- Modelled from the spec: the reserved "global" organization sentinel
used by the role-membership builder (its declaration is not under src/;
the user-role SQL literally compares against `0`). -/
def GlobalOrgID : Int := 0

/-- `UserRolesFilterCondition` from filter.go: no clause for user ID 0. -/
def UserRolesFilterCondition (orgID userID : Int) : String × List Attr :=
  if userID = 0 then ("", [])
  else ("ur.user_id = ? AND (ur.org_id = ? OR ur.org_id = 0)",
        [Attr.int userID, Attr.int orgID, Attr.int GlobalOrgID])

/-- `userRolesFilter` from filter.go. -/
def userRolesFilter (orgID userID : Int) : String × List Attr :=
  let c := UserRolesFilterCondition orgID userID
  if c.1 = "" then c
  else ("\n\tSELECT ur.role_id\n\tFROM user_role AS ur\n\tWHERE " ++ c.1 ++ "\n\t", c.2)

/-- `TeamRolesFilderCondition` from filter.go (source's spelling kept). -/
def TeamRolesFilderCondition (orgID : Int) (teamIDs : List Int) : String × List Attr :=
  if teamIDs.isEmpty then ("", [])
  else ("tr.team_id IN(?" ++ strRepeat ", ?" (teamIDs.length - 1) ++ ") AND tr.org_id = ?",
        teamIDs.map Attr.int ++ [Attr.int orgID])

/-- `teamRolesFilter` from filter.go. -/
def teamRolesFilter (orgID : Int) (teamIDs : List Int) : String × List Attr :=
  let c := TeamRolesFilderCondition orgID teamIDs
  if c.1 = "" then c
  else ("\n\tSELECT tr.role_id FROM team_role as tr\n\tWHERE " ++ c.1 ++ "\n\t", c.2)

/-- `BuiltinRolesFilterCondition` from filter.go. -/
def BuiltinRolesFilterCondition (orgID : Int) (roles : List String) : String × List Attr :=
  if roles.isEmpty then ("", [])
  else ("br.role IN (?" ++ strRepeat ", ?" (roles.length - 1) ++ ") AND (br.org_id = ? OR br.org_id = ?)",
        roles.map Attr.str ++ [Attr.int orgID, Attr.int GlobalOrgID])

/-- `builtinRolesFilter` from filter.go. -/
def builtinRolesFilter (orgID : Int) (roles : List String) : String × List Attr :=
  let c := BuiltinRolesFilterCondition orgID roles
  if c.1 = "" then c
  else ("\n\tSELECT br.role_id FROM builtin_role AS br\n\tWHERE " ++ c.1 ++ "\n\t", c.2)

/-- One `strings.Builder` step of `UserRolesFilter`: skip an empty
channel fragment, otherwise OR-append its clause and append its args. -/
def appendChannel (acc frag : String × List Attr) : String × List Attr :=
  if frag.1 = "" then acc
  else if acc.1 = "" then (frag.1, acc.2 ++ frag.2)
  else (acc.1 ++ " OR " ++ frag.1, acc.2 ++ frag.2)

/-- `UserRolesFilter` from filter.go: OR-combine the user, team and
builtin channels inside an inner-join subquery. -/
def UserRolesFilter (orgID userID : Int) (teamIDs : List Int) (roles : List String) :
    String × List Attr :=
  let acc := appendChannel (appendChannel (appendChannel ("", [])
    (userRolesFilter orgID userID)) (teamRolesFilter orgID teamIDs))
    (builtinRolesFilter orgID roles)
  ("INNER JOIN (" ++ acc.1 ++ ") as all_role ON role.id = all_role.role_id", acc.2)

/-! ## Auxiliary definitions for the proofs, and concrete test users -/

/-- Occurrence count of an identifier in a list. -/
def countAttr : List Attr → Attr → Nat
  | [], _ => 0
  | x :: xs, a => countAttr xs a + (if x = a then 1 else 0)

/-- Lookup in the tally association list (0 when absent). -/
def countKey : List (Attr × Nat) → Attr → Nat
  | [], _ => 0
  | (k, n) :: rest, a => if k = a then n else countKey rest a

/-- Keys of the tally association list. -/
def keysOf (t : List (Attr × Nat)) : List Attr := t.map Prod.fst

/-- Per-action scopes where action `A1` grants identifiers 1, 2, 3 and
action `A2` grants 2, 3, 4 under the `teams:id:` prefix. -/
def permsC3 : String → List String := fun a =>
  if a = "A1" then ["teams:id:1", "teams:id:2", "teams:id:3"]
  else if a = "A2" then ["teams:id:2", "teams:id:3", "teams:id:4"]
  else []

/-- A user of organization 1 holding `permsC3` there. -/
def userC3 : SignedInUser :=
  { OrgID := 1, Permissions := some (fun o => if o = 1 then some permsC3 else none) }

/-- Per-action scopes where action `A1` is wildcarded and `A2` grants
only identifier 5. -/
def permsC4 : String → List String := fun a =>
  if a = "A1" then ["teams:id:*"]
  else if a = "A2" then ["teams:id:5"]
  else []

/-- A user of organization 1 holding `permsC4` there. -/
def userC4 : SignedInUser :=
  { OrgID := 1, Permissions := some (fun o => if o = 1 then some permsC4 else none) }

/-- Per-action scopes wildcarding every requested action. -/
def permsC5 : String → List String := fun a =>
  if a = "teams:read" then ["teams:*"]
  else if a = "teams:write" then ["teams:id:*"]
  else []

/-- A user of organization 2 holding `permsC5` there. -/
def userC5 : SignedInUser :=
  { OrgID := 2, Permissions := some (fun o => if o = 2 then some permsC5 else none) }

/-- An empty per-action scope assignment (every action reads as `[]`,
like a present but actionless permission map). -/
def permsC6 : String → List String := fun _ => []

/-- A user of organization 1 holding `permsC6` there. -/
def userC6 : SignedInUser :=
  { OrgID := 1, Permissions := some (fun o => if o = 1 then some permsC6 else none) }

/-- Per-action scopes where `teams:read` grants identifier 1 but
`teams:write` grants nothing. -/
def permsC2 : String → List String := fun a =>
  if a = "teams:read" then ["teams:id:1"] else []

/-- A user of organization 1 holding `permsC2` there. -/
def userC2 : SignedInUser :=
  { OrgID := 1, Permissions := some (fun o => if o = 1 then some permsC2 else none) }

/-- The end-to-end example: only `teams:read`, scopes
`teams:id:5` and `teams:id:9`. -/
def permsC10 : String → List String := fun a =>
  if a = "teams:read" then ["teams:id:5", "teams:id:9"] else []

/-- A user of organization 1 holding `permsC10` there. -/
def userC10 : SignedInUser :=
  { OrgID := 1, Permissions := some (fun o => if o = 1 then some permsC10 else none) }

/-! ## Helper lemmas: tally-map counting -/

lemma countAttr_eq_zero_of_not_mem {l : List Attr} {a : Attr} (h : a ∉ l) :
    countAttr l a = 0 := by
  induction l with
  | nil => rfl
  | cons x xs ih =>
    have hx : x ≠ a := fun he => h (he ▸ List.mem_cons_self x xs)
    have hxs : a ∉ xs := fun hm => h (List.mem_cons_of_mem x hm)
    simp [countAttr, hx, ih hxs]

lemma countAttr_le_one_of_nodup {l : List Attr} (h : l.Nodup) (a : Attr) :
    countAttr l a ≤ 1 := by
  induction l with
  | nil => simp [countAttr]
  | cons x xs ih =>
    rcases List.nodup_cons.mp h with ⟨hx, hxs⟩
    by_cases hxa : x = a
    · subst hxa
      simp [countAttr, countAttr_eq_zero_of_not_mem hx]
    · simpa [countAttr, hxa] using ih hxs

lemma mem_of_countAttr_pos {l : List Attr} {a : Attr} (h : 0 < countAttr l a) :
    a ∈ l := by
  induction l with
  | nil => simp [countAttr] at h
  | cons x xs ih =>
    by_cases hxa : x = a
    · exact hxa ▸ List.mem_cons_self x xs
    · simp only [countAttr, hxa, if_false] at h
      exact List.mem_cons_of_mem x (ih (by omega))

lemma countKey_bump (t : List (Attr × Nat)) (x a : Attr) :
    countKey (bump t x) a = countKey t a + (if x = a then 1 else 0) := by
  induction t with
  | nil => simp [bump, countKey]
  | cons p rest ih =>
    obtain ⟨k, n⟩ := p
    by_cases hkx : k = x
    · subst hkx
      by_cases hka : k = a
      · subst hka; simp [bump, countKey]
      · simp [bump, countKey, hka, fun h : k = a => hka h]
    · by_cases hka : k = a
      · subst hka
        have hxk : x ≠ k := fun h => hkx h.symm
        simp [bump, countKey, hkx, hxk]
      · simp [bump, countKey, hkx, hka, ih]

lemma countKey_tallyAdd (ids : List Attr) (t : List (Attr × Nat)) (a : Attr) :
    countKey (tallyAdd t ids) a = countKey t a + countAttr ids a := by
  induction ids generalizing t with
  | nil => simp [tallyAdd, countAttr]
  | cons x xs ih =>
    have : tallyAdd t (x :: xs) = tallyAdd (bump t x) xs := rfl
    rw [this, ih, countKey_bump, countAttr]
    omega

/-! ## Helper lemmas: duplicate-freeness of parsed identifier sets and
tally keys -/

lemma insertDedup_nodup {acc : List Attr} (id : Attr) (h : acc.Nodup) :
    (insertDedup acc id).Nodup := by
  unfold insertDedup
  split
  · exact h
  · next hni =>
    refine List.Nodup.append h (List.nodup_singleton id) ?_
    intro a ha hb
    rcases List.mem_singleton.mp hb with rfl
    exact hni ha

lemma parseScopesGo_fst_nodup (wcs : List String) (pfx : String)
    (parse : String → Option Attr) (scopes : List String) :
    ∀ acc : List Attr, acc.Nodup → ((parseScopesGo wcs pfx parse scopes acc).1).Nodup := by
  induction scopes with
  | nil => intro acc h; exact h
  | cons scope rest ih =>
    intro acc h
    unfold parseScopesGo
    split
    · exact List.nodup_nil
    · split
      · cases hp : parse scope with
        | some id => exact ih _ (insertDedup_nodup id h)
        | none => exact ih _ h
      · exact ih _ h

lemma ParseScopes_fst_nodup (pfx : String) (scopes : List String) :
    ((ParseScopes pfx scopes).1).Nodup :=
  parseScopesGo_fst_nodup _ _ _ _ [] List.nodup_nil

lemma keysOf_nil : keysOf [] = [] := rfl

lemma keysOf_cons (k : Attr) (n : Nat) (t : List (Attr × Nat)) :
    keysOf ((k, n) :: t) = k :: keysOf t := rfl

lemma mem_keys_bump {t : List (Attr × Nat)} {x a : Attr}
    (h : a ∈ keysOf (bump t x)) : a ∈ keysOf t ∨ a = x := by
  induction t with
  | nil =>
    simp only [bump, keysOf_nil] at h ⊢
    rcases List.mem_singleton.mp (by simpa [keysOf] using h) with rfl
    exact Or.inr rfl
  | cons p rest ih =>
    obtain ⟨k, n⟩ := p
    by_cases hkx : k = x
    · subst hkx
      rw [bump, if_pos rfl, keysOf_cons] at h
      rw [keysOf_cons]
      exact Or.inl h
    · rw [bump, if_neg hkx, keysOf_cons] at h
      rw [keysOf_cons]
      rcases List.mem_cons.mp h with rfl | hr
      · exact Or.inl (List.mem_cons_self _ _)
      · rcases ih hr with hl | hr2
        · exact Or.inl (List.mem_cons_of_mem _ hl)
        · exact Or.inr hr2

lemma keys_nodup_bump {t : List (Attr × Nat)} (x : Attr)
    (h : (keysOf t).Nodup) : (keysOf (bump t x)).Nodup := by
  induction t with
  | nil =>
    rw [bump]
    exact List.nodup_singleton x
  | cons p rest ih =>
    obtain ⟨k, n⟩ := p
    rw [keysOf_cons, List.nodup_cons] at h
    obtain ⟨hk, hrest⟩ := h
    by_cases hkx : k = x
    · subst hkx
      rw [bump, if_pos rfl, keysOf_cons, List.nodup_cons]
      exact ⟨hk, hrest⟩
    · rw [bump, if_neg hkx, keysOf_cons, List.nodup_cons]
      refine ⟨fun hkb => ?_, ih hrest⟩
      rcases mem_keys_bump hkb with hm | rfl
      · exact hk hm
      · exact hkx rfl

lemma keys_nodup_tallyAdd (ids : List Attr) (t : List (Attr × Nat))
    (h : (keysOf t).Nodup) : (keysOf (tallyAdd t ids)).Nodup := by
  induction ids generalizing t with
  | nil => exact h
  | cons x xs ih => exact ih (bump t x) (keys_nodup_bump x h)

lemma countKey_of_mem {t : List (Attr × Nat)} (h : (keysOf t).Nodup)
    {k : Attr} {n : Nat} (hm : (k, n) ∈ t) : countKey t k = n := by
  induction t with
  | nil => cases hm
  | cons p rest ih =>
    obtain ⟨k', n'⟩ := p
    rw [keysOf_cons, List.nodup_cons] at h
    obtain ⟨hk', hrest⟩ := h
    rcases List.mem_cons.mp hm with he | hr
    · obtain ⟨h1, h2⟩ := Prod.mk.inj he
      subst h1
      subst h2
      simp [countKey]
    · have hne : k' ≠ k := by
        intro he'
        subst he'
        exact hk' (List.mem_map.mpr ⟨(k', n), hr, rfl⟩)
      rw [countKey, if_neg hne]
      exact ih hrest hr

/-! ## Helper lemmas: the per-action loop of `Filter` -/

lemma filterLoop_done_keys_nodup (perms : String → List String) (pfx : String)
    (as : List String) :
    ∀ (w : Nat) (t : List (Attr × Nat)) (w' : Nat) (t' : List (Attr × Nat)),
    filterLoop perms pfx as w t = .done w' t' → (keysOf t).Nodup → (keysOf t').Nodup := by
  induction as with
  | nil =>
    intro w t w' t' h hn
    rw [filterLoop] at h
    cases h
    exact hn
  | cons a rest ih =>
    intro w t w' t' h hn
    cases hw : (ParseScopes pfx (perms a)).2 with
    | true =>
      simp only [filterLoop, hw, if_true] at h
      exact ih _ _ _ _ h hn
    | false =>
      cases he : (ParseScopes pfx (perms a)).1.isEmpty with
      | true => simp [filterLoop, hw, he] at h
      | false =>
        simp only [filterLoop, hw, he, Bool.false_eq_true, if_false] at h
        exact ih _ _ _ _ h (keys_nodup_tallyAdd _ _ hn)

lemma filterLoop_done_le (perms : String → List String) (pfx : String)
    (as : List String) :
    ∀ (w : Nat) (t : List (Attr × Nat)) (w' : Nat) (t' : List (Attr × Nat)),
    filterLoop perms pfx as w t = .done w' t' →
    ∀ a : Attr, countKey t' a + w' ≤ countKey t a + w + as.length := by
  induction as with
  | nil =>
    intro w t w' t' h a
    rw [filterLoop] at h
    cases h
    simp
  | cons b rest ih =>
    intro w t w' t' h a
    cases hw : (ParseScopes pfx (perms b)).2 with
    | true =>
      simp only [filterLoop, hw, if_true] at h
      have := ih _ _ _ _ h a
      simp only [List.length_cons]
      omega
    | false =>
      cases he : (ParseScopes pfx (perms b)).1.isEmpty with
      | true => simp [filterLoop, hw, he] at h
      | false =>
        simp only [filterLoop, hw, he, Bool.false_eq_true, if_false] at h
        have hrec := ih _ _ _ _ h a
        rw [countKey_tallyAdd] at hrec
        have hle : countAttr (ParseScopes pfx (perms b)).1 a ≤ 1 :=
          countAttr_le_one_of_nodup (ParseScopes_fst_nodup pfx (perms b)) a
        simp only [List.length_cons]
        omega

lemma filterLoop_done_grant (perms : String → List String) (pfx : String)
    (as : List String) :
    ∀ (w : Nat) (t : List (Attr × Nat)) (w' : Nat) (t' : List (Attr × Nat)),
    filterLoop perms pfx as w t = .done w' t' →
    ∀ a : Attr, countKey t' a + w' = countKey t a + w + as.length →
    ∀ act ∈ as, (ParseScopes pfx (perms act)).2 = true ∨ a ∈ (ParseScopes pfx (perms act)).1 := by
  induction as with
  | nil =>
    intro w t w' t' _ a _ act hact
    cases hact
  | cons b rest ih =>
    intro w t w' t' h a heq act hact
    cases hw : (ParseScopes pfx (perms b)).2 with
    | true =>
      simp only [filterLoop, hw, if_true] at h
      rcases List.mem_cons.mp hact with rfl | hmem
      · exact Or.inl hw
      · refine ih _ _ _ _ h a ?_ act hmem
        simp only [List.length_cons] at heq
        omega
    | false =>
      cases he : (ParseScopes pfx (perms b)).1.isEmpty with
      | true => simp [filterLoop, hw, he] at h
      | false =>
        simp only [filterLoop, hw, he, Bool.false_eq_true, if_false] at h
        have hub := filterLoop_done_le perms pfx rest _ _ _ _ h a
        rw [countKey_tallyAdd] at hub
        have hle : countAttr (ParseScopes pfx (perms b)).1 a ≤ 1 :=
          countAttr_le_one_of_nodup (ParseScopes_fst_nodup pfx (perms b)) a
        simp only [List.length_cons] at heq
        rcases List.mem_cons.mp hact with rfl | hmem
        · refine Or.inr (mem_of_countAttr_pos (l := (ParseScopes pfx (perms act)).1) ?_)
          omega
        · refine ih _ _ _ _ h a ?_ act hmem
          rw [countKey_tallyAdd]
          omega

lemma filterLoop_all_wildcards (perms : String → List String) (pfx : String)
    (as : List String) :
    ∀ (w : Nat) (t : List (Attr × Nat)),
    (∀ act ∈ as, (ParseScopes pfx (perms act)).2 = true) →
    filterLoop perms pfx as w t = .done (w + as.length) t := by
  induction as with
  | nil => intro w t _; rw [filterLoop]; rfl
  | cons b rest ih =>
    intro w t hall
    have hb : (ParseScopes pfx (perms b)).2 = true :=
      hall b (List.mem_cons_self b rest)
    simp only [filterLoop, hb, if_true]
    rw [ih (w + 1) t (fun act hm => hall act (List.mem_cons_of_mem b hm))]
    simp only [List.length_cons]
    congr 1
    omega

lemma filterLoop_earlyDeny_of_empty (perms : String → List String) (pfx : String)
    (as : List String) :
    ∀ (w : Nat) (t : List (Attr × Nat)),
    (∃ act ∈ as, ParseScopes pfx (perms act) = ([], false)) →
    filterLoop perms pfx as w t = .earlyDeny := by
  induction as with
  | nil =>
    intro w t h
    rcases h with ⟨act, hact, _⟩
    cases hact
  | cons b rest ih =>
    intro w t h
    rcases h with ⟨act, hact, hemp⟩
    rcases List.mem_cons.mp hact with rfl | hmem
    · simp [filterLoop, hemp]
    · cases hw : (ParseScopes pfx (perms b)).2 with
      | true =>
        simp only [filterLoop, hw, if_true]
        exact ih _ _ ⟨act, hmem, hemp⟩
      | false =>
        cases he : (ParseScopes pfx (perms b)).1.isEmpty with
        | true => simp [filterLoop, hw, he]
        | false =>
          simp only [filterLoop, hw, he, Bool.false_eq_true, if_false]
          exact ih _ _ ⟨act, hmem, hemp⟩

/-! ## Claim theorems -/

/-- Claim C1: for every user, prefix and action list, a column identifier
that is not in the accept list makes `Filter` return the deny-all filter
(`" 1 = 0"`, no args) together with a non-nil error, regardless of the
user's permissions. -/
theorem Filter_not_accept_listed_denies (u : Option SignedInUser)
    (sqlID pfx : String) (actions : List String)
    (h : sqlIDAcceptList.contains sqlID = false) :
    Filter u sqlID pfx actions =
      ({ Where := " 1 = 0", Args := [] }, some "sqlID is not in the accept list") := by
  have hm : sqlID ∉ sqlIDAcceptList := by simpa using h
  simp [Filter, hm, denyQuery]

/-- Witness for C1 at the concrete column `"evil_column"`. -/
theorem Filter_not_accept_listed_denies_witness :
    sqlIDAcceptList.contains "evil_column" = false ∧
    Filter none "evil_column" "teams:id:" ["teams:read"] =
      ({ Where := " 1 = 0", Args := [] }, some "sqlID is not in the accept list") :=
  ⟨by decide,
   Filter_not_accept_listed_denies none "evil_column" "teams:id:" ["teams:read"] (by decide)⟩

/-- Claim C7: a nil user, a nil permission map, or a permission map with
no entry for the user's organization makes `Filter` return the deny-all
filter and a non-nil error, for every column, prefix and action list. -/
theorem Filter_missing_permissions_denies (u : Option SignedInUser)
    (sqlID pfx : String) (actions : List String)
    (h : u = none ∨ ∃ usr : SignedInUser, u = some usr ∧
      (usr.Permissions = none ∨
        ∃ pm, usr.Permissions = some pm ∧ pm usr.OrgID = none)) :
    (Filter u sqlID pfx actions).1 = { Where := " 1 = 0", Args := [] } ∧
    (Filter u sqlID pfx actions).2 ≠ none := by
  have hp : permsForOrg u = none := by
    rcases h with rfl | ⟨usr, rfl, hperm⟩
    · rfl
    · rcases hperm with hnone | ⟨pm, hpm, horg⟩
      · simp [permsForOrg, hnone]
      · simp [permsForOrg, hpm, horg]
  by_cases hm : sqlID ∈ sqlIDAcceptList
  · simp [Filter, hm, hp, denyQuery]
  · simp [Filter, hm, denyQuery]

/-- Witness for C7 at the nil user. -/
theorem Filter_missing_permissions_denies_witness :
    (Filter none "t.id" "teams:id:" ["teams:read"]).1 = { Where := " 1 = 0", Args := [] } ∧
    (Filter none "t.id" "teams:id:" ["teams:read"]).2 ≠ none :=
  Filter_missing_permissions_denies none "t.id" "teams:id:" ["teams:read"] (Or.inl rfl)

/-- Claim C6: with an accept-listed column and a user whose per-organization
permission map is present, an empty action list makes `Filter` return the
allow-all filter (`" 1 = 1"`, no args) with a nil error. -/
theorem Filter_zero_actions_allow_all (u : Option SignedInUser)
    (sqlID pfx : String) (perms : String → List String)
    (h1 : sqlIDAcceptList.contains sqlID = true)
    (h2 : permsForOrg u = some perms) :
    Filter u sqlID pfx [] = ({ Where := " 1 = 1", Args := [] }, none) := by
  have hm : sqlID ∈ sqlIDAcceptList := by simpa using h1
  simp [Filter, hm, h2, filterLoop, allowAllQuery]

/-- Witness for C6: a concrete valid user, `t.id`, and zero actions. -/
theorem Filter_zero_actions_allow_all_witness :
    sqlIDAcceptList.contains "t.id" = true ∧
    permsForOrg (some userC6) = some permsC6 ∧
    Filter (some userC6) "t.id" "teams:id:" [] = ({ Where := " 1 = 1", Args := [] }, none) :=
  ⟨by decide, rfl,
   Filter_zero_actions_allow_all (some userC6) "t.id" "teams:id:" permsC6 (by decide) rfl⟩

/-- Claim C5: with an accept-listed column and a user whose scopes resolve
to a wildcard for every requested action under the given prefix, `Filter`
returns the allow-all filter (`" 1 = 1"`, no bound arguments) with a nil
error. -/
theorem Filter_all_wildcards_allow_all (u : Option SignedInUser)
    (sqlID pfx : String) (actions : List String) (perms : String → List String)
    (h1 : sqlIDAcceptList.contains sqlID = true)
    (h2 : permsForOrg u = some perms)
    (h3 : ∀ act ∈ actions, (ParseScopes pfx (perms act)).2 = true) :
    Filter u sqlID pfx actions = ({ Where := " 1 = 1", Args := [] }, none) := by
  have hm : sqlID ∈ sqlIDAcceptList := by simpa using h1
  have hl := filterLoop_all_wildcards perms pfx actions 0 [] h3
  simp [Filter, hm, h2, hl, allowAllQuery]

/-- Witness for C5: both requested actions are wildcarded for `userC5`. -/
theorem Filter_all_wildcards_allow_all_witness :
    (∀ act ∈ ["teams:read", "teams:write"],
      (ParseScopes "teams:id:" (permsC5 act)).2 = true) ∧
    Filter (some userC5) "t.id" "teams:id:" ["teams:read", "teams:write"] =
      ({ Where := " 1 = 1", Args := [] }, none) :=
  ⟨by decide,
   Filter_all_wildcards_allow_all (some userC5) "t.id" "teams:id:"
     ["teams:read", "teams:write"] permsC5 (by decide) rfl (by decide)⟩

/-- Claim C2: with an accept-listed column and a present permission map, if
any single requested action resolves via `ParseScopes` to an empty
identifier set without a wildcard, `Filter` returns the deny-all filter
with a nil error, even if other actions grant non-empty sets. -/
theorem Filter_empty_action_denies (u : Option SignedInUser)
    (sqlID pfx : String) (actions : List String) (perms : String → List String)
    (h1 : sqlIDAcceptList.contains sqlID = true)
    (h2 : permsForOrg u = some perms)
    (h3 : ∃ act ∈ actions, ParseScopes pfx (perms act) = ([], false)) :
    Filter u sqlID pfx actions = ({ Where := " 1 = 0", Args := [] }, none) := by
  have hm : sqlID ∈ sqlIDAcceptList := by simpa using h1
  have hl := filterLoop_earlyDeny_of_empty perms pfx actions 0 [] h3
  simp [Filter, hm, h2, hl, denyQuery]

/-- Witness for C2: `teams:read` grants identifier 1 but `teams:write`
grants nothing, so the whole call is deny-all without error. -/
theorem Filter_empty_action_denies_witness :
    (∃ act ∈ ["teams:read", "teams:write"],
      ParseScopes "teams:id:" (permsC2 act) = ([], false)) ∧
    Filter (some userC2) "t.id" "teams:id:" ["teams:read", "teams:write"] =
      ({ Where := " 1 = 0", Args := [] }, none) :=
  ⟨by decide,
   Filter_empty_action_denies (some userC2) "t.id" "teams:id:"
     ["teams:read", "teams:write"] permsC2 (by decide) rfl (by decide)⟩

/-- Claim C3: with actions granting identifier sets 1,2,3 and 2,3,4 under
the same prefix, the bound-argument set of the returned filter is exactly
2,3; and in general an identifier appears among the bound arguments only
if every requested action is wildcarded or grants it. -/
theorem Filter_intersection_law :
    (Filter (some userC3) "t.id" "teams:id:" ["A1", "A2"] =
      ({ Where := " t.id IN (?,?)", Args := [Attr.int 2, Attr.int 3] }, none) ∧
     (Filter (some userC3) "t.id" "teams:id:" ["A1", "A2"]).1.Args.toFinset =
       {Attr.int 2, Attr.int 3}) ∧
    ∀ (u : Option SignedInUser) (sqlID pfx : String) (actions : List String)
      (perms : String → List String) (a : Attr),
      permsForOrg u = some perms →
      a ∈ (Filter u sqlID pfx actions).1.Args →
      ∀ act ∈ actions,
        (ParseScopes pfx (perms act)).2 = true ∨ a ∈ (ParseScopes pfx (perms act)).1 := by
  refine ⟨⟨by decide, by decide⟩, ?_⟩
  intro u sqlID pfx actions perms a h2 hmem act hact
  by_cases hc : sqlID ∈ sqlIDAcceptList
  · simp only [Filter, h2] at hmem
    rw [if_pos (by simpa using hc)] at hmem
    cases hL : filterLoop perms pfx actions 0 [] with
    | earlyDeny => rw [hL] at hmem; simp [denyQuery] at hmem
    | done w tally =>
      rw [hL] at hmem
      by_cases hwl : w = actions.length
      · simp [hwl, allowAllQuery] at hmem
      · simp only [if_neg hwl] at hmem
        by_cases hie :
            ((tally.filter (fun p => p.2 + w == actions.length)).map Prod.fst).isEmpty = true
        · simp [hie, denyQuery] at hmem
        · simp only [hie, Bool.false_eq_true, if_false] at hmem
          obtain ⟨p, hpf, hpa⟩ := List.mem_map.mp hmem
          obtain ⟨hpt, hpc⟩ := List.mem_filter.mp hpf
          have hpeq : p.2 + w = actions.length := by
            simpa using hpc
          have hkn : (keysOf tally).Nodup :=
            filterLoop_done_keys_nodup perms pfx actions 0 [] w tally hL
              (by simp [keysOf])
          have hck : countKey tally a = p.2 := by
            subst hpa
            exact countKey_of_mem hkn (by simpa using hpt)
          refine filterLoop_done_grant perms pfx actions 0 [] w tally hL a ?_ act hact
          simp only [countKey]
          omega
  · simp [Filter, hc, denyQuery] at hmem

/-- Witness for C3's general part: identifier 2 of the concrete result is
granted by action `A1`. -/
theorem Filter_intersection_law_witness :
    permsForOrg (some userC3) = some permsC3 ∧
    Attr.int 2 ∈ (Filter (some userC3) "t.id" "teams:id:" ["A1", "A2"]).1.Args ∧
    ((ParseScopes "teams:id:" (permsC3 "A1")).2 = true ∨
      Attr.int 2 ∈ (ParseScopes "teams:id:" (permsC3 "A1")).1) :=
  ⟨rfl, by decide,
   Filter_intersection_law.2 (some userC3) "t.id" "teams:id:" ["A1", "A2"]
     permsC3 (Attr.int 2) rfl (by decide) "A1" (by decide)⟩

/-- Claim C4: with `A1` wildcarded and `A2` granting only identifier 5,
the bound-argument set of the returned filter is exactly 5 — the
wildcard counts toward every identifier's tally but contributes no
identifiers of its own. -/
theorem Filter_wildcard_universal_grant :
    (ParseScopes "teams:id:" (permsC4 "A1")).2 = true ∧
    Filter (some userC4) "t.id" "teams:id:" ["A1", "A2"] =
      ({ Where := " t.id IN (?)", Args := [Attr.int 5] }, none) ∧
    (Filter (some userC4) "t.id" "teams:id:" ["A1", "A2"]).1.Args.toFinset =
      {Attr.int 5} := by
  decide

/-- Counterexample to claim C9 as stated: the parse of
`"dashboards:uid:"`-prefixed scopes does not yield the integer set 7. -/
theorem ParseScopes_uid_integer_mode_counterexample :
    (ParseScopes "dashboards:uid:"
      ["dashboards:uid:7", "dashboards:uid:notanumber", "other:uid:9"]).1.toFinset ≠
      ({Attr.int 7} : Finset Attr) := by
  decide

/-- Claim C9 amended: `"dashboards:uid:"` does not end in `":id:"`, so
string mode applies: the parse yields the string identifiers "7" and
"notanumber" with no wildcard; only the non-matching-prefix scope is
excluded. -/
theorem ParseScopes_uid_string_mode :
    strHasSuffix "dashboards:uid:" ":id:" = false ∧
    ParseScopes "dashboards:uid:"
      ["dashboards:uid:7", "dashboards:uid:notanumber", "other:uid:9"] =
      ([Attr.str "7", Attr.str "notanumber"], false) ∧
    (ParseScopes "dashboards:uid:"
      ["dashboards:uid:7", "dashboards:uid:notanumber", "other:uid:9"]).1.toFinset =
      {Attr.str "7", Attr.str "notanumber"} := by
  decide

/-- Claim C10: a user whose only `teams:read` scopes are `teams:id:5` and
`teams:id:9` gets `" t.id IN (?,?)"` with bound-argument set 5, 9 and a
nil error from `Filter` on column `t.id` and prefix `teams:id:`. -/
theorem Filter_end_to_end_teams :
    Filter (some userC10) "t.id" "teams:id:" ["teams:read"] =
      ({ Where := " t.id IN (?,?)", Args := [Attr.int 5, Attr.int 9] }, none) ∧
    (Filter (some userC10) "t.id" "teams:id:" ["teams:read"]).1.Args.toFinset =
      {Attr.int 5, Attr.int 9} := by
  decide

/-- Claim C8: with user ID 0 the direct user-role channel contributes no
clause and no bound arguments: `UserRolesFilter` builds its join subquery
from the team and builtin channels alone, for every organization, team
list and builtin-role list. -/
theorem UserRolesFilter_zero_user_id (orgID : Int) (teamIDs : List Int)
    (roles : List String) :
    UserRolesFilterCondition orgID 0 = ("", []) ∧
    userRolesFilter orgID 0 = ("", []) ∧
    UserRolesFilter orgID 0 teamIDs roles =
      ("INNER JOIN (" ++
        (appendChannel (appendChannel ("", []) (teamRolesFilter orgID teamIDs))
          (builtinRolesFilter orgID roles)).1 ++
        ") as all_role ON role.id = all_role.role_id",
       (appendChannel (appendChannel ("", []) (teamRolesFilter orgID teamIDs))
          (builtinRolesFilter orgID roles)).2) := by
  refine ⟨rfl, rfl, ?_⟩
  simp [UserRolesFilter, userRolesFilter, UserRolesFilterCondition, appendChannel]

end AccessControl
